import Mathlib

/-!
Verification of the parameter-sweep engine of the 1dpoisson-ex repository.

The definitions below are a shallow embedding of the Python sources
(`ldpoisson_ex/solver.py`, `ldpoisson_ex/models.py`, `ldpoisson_ex/data.py`).
Python floats are modelled as exact rationals (`ℚ`), Python `dict`s as
insertion-ordered association lists with last-write-wins update semantics,
and fallible Python code as `Except`-valued functions whose error values
model the Python exception classes that can be raised.
-/

namespace OneDPoissonEx

/-- Python exception classes that the embedded code can raise. -/
inductive PyError where
  | valueError
  | typeError
  | keyError
  | attributeError
  | fileNotFoundError
  deriving DecidableEq

/-- Python `dict` assignment `d[k] = v`: an existing key keeps its insertion
position and gets the new value; a new key is appended at the end. -/
def dictInsert {α : Type} (d : List (String × α)) (k : String) (v : α) :
    List (String × α) :=
  match d with
  | [] => [(k, v)]
  | (k', v') :: rest =>
    if k' = k then (k, v) :: rest else (k', v') :: dictInsert rest k v

/-- Python `dict` read `d[k]` (as an `Option`): the value stored at the key. -/
def dictLookup {α : Type} (d : List (String × α)) (k : String) : Option α :=
  match d with
  | [] => none
  | (k', v') :: rest => if k' = k then some v' else dictLookup rest k

/-- Model of `np.arange(start, stop, step)` under exact rational arithmetic:
`ceil((stop - start) / step)` values `start + i * step`.  (NumPy evaluates the
same formula in IEEE double precision; the `step = 0` error case is out of
scope and yields `[]` here because rational division by zero is zero.) -/
def np_arange (start stop step : ℚ) : List ℚ :=
  (List.range (⌈(stop - start) / step⌉).toNat).map
    (fun (i : ℕ) => start + (i : ℚ) * step)

/-- Model of `models.Array`: a `{start, end, step}` range specification. -/
structure Array where
  start : ℚ
  «end» : ℚ
  step : ℚ
  deriving DecidableEq

/-- The `value` field of `models.Variable`: a literal list or an `Array`. -/
inductive VarValue where
  | list : List ℚ → VarValue
  | array : Array → VarValue
  deriving DecidableEq

/-- Model of `models.Variable`. -/
structure Variable where
  name : String
  value : VarValue
  format : Option String
  deriving DecidableEq

/-- Model of `models.Constant`. -/
structure Constant where
  name : String
  value : ℚ
  deriving DecidableEq

/-- The value list a variable contributes in `ParamsManager.__init__`:
a literal list is taken as-is, an `Array` spec is materialized with
`np.arange(start, end, step)`. -/
def materialize (v : VarValue) : List ℚ :=
  match v with
  | .list l => l
  | .array a => np_arange a.start a.«end» a.step

/-- State of `solver.ParamsManager`: the three dicts built by `__init__`. -/
structure ParamsManager where
  _constants : List (String × ℚ)
  _variables : List (String × List ℚ)
  _variable_formats : List (String × Option String)
  deriving DecidableEq

/-- Model of `ParamsManager.__init__(constants, variables)`: fills `_constants`,
`_variables` (materializing `Array` specs) and `_variable_formats` by
plain dict assignment in declaration order; no name-collision check exists. -/
def ParamsManager.init (constants : List Constant) (vars : List Variable) :
    ParamsManager where
  _constants := constants.foldl (fun d c => dictInsert d c.name c.value) []
  _variables :=
    vars.foldl (fun d v => dictInsert d v.name (materialize v.value)) []
  _variable_formats :=
    vars.foldl (fun d v => dictInsert d v.name v.format) []

/-- Model of `itertools.product(*lss)` on lists: Cartesian product, first factor
slowest, last factor fastest. -/
def product (lss : List (List ℚ)) : List (List ℚ) :=
  match lss with
  | [] => [[]]
  | l :: ls => l.foldr (fun v acc => (product ls).map (fun t => v :: t) ++ acc) []

/-- Model of `ParamsManager.generate_variables`: if no variables were declared, yield
only the constants dict; otherwise yield `dict(zip(var_names, combination))`
for every `combination` in `itertools.product(*var_values)`. -/
def ParamsManager.generate_variables (m : ParamsManager) :
    List (List (String × ℚ)) :=
  if m._variables.isEmpty then [m._constants]
  else
    (product (m._variables.map (fun p => p.2))).map
      (fun combo => (m._variables.map (fun p => p.1)).zip combo)

/-- Model of `ParamsManager.shape_variables`: per-variable value counts in
declaration order. -/
def ParamsManager.shape_variables (m : ParamsManager) : List Nat :=
  m._variables.map (fun p => p.2.length)

/-- The opening brace character. -/
def lbrace : Char := Char.ofNat 123

/-- The closing brace character. -/
def rbrace : Char := Char.ofNat 125

/-- Whether a character is an ASCII decimal digit. -/
def isDigitCh (c : Char) : Bool := 48 ≤ c.toNat && c.toNat ≤ 57

/-- Numeric value of an ASCII digit. -/
def digitVal (c : Char) : Nat := c.toNat - 48

/-- ASCII digit for a value below ten. -/
def digitChar (d : Nat) : Char := Char.ofNat (48 + d)

/-- Decimal digits of a natural number (fuel-driven so it reduces in the
kernel; `fuel ≥ 1` suffices for `n < 10`, and `n` itself always suffices). -/
def natStrAux : Nat → Nat → List Char
  | 0, _ => []
  | fuel + 1, n =>
    if n < 10 then [digitChar n]
    else natStrAux fuel (n / 10) ++ [digitChar (n % 10)]

/-- Decimal string of a natural number. -/
def natStr (n : Nat) : String := ⟨natStrAux (n + 1) n⟩

/-- Left-pad a digit string with zeros to width `w`. -/
def padZeros (w : Nat) (cs : List Char) : List Char :=
  List.replicate (w - cs.length) '0' ++ cs

/-- Fixed-point rendering with `prec` digits after the point, the meaning of
a Python `:.{prec}f` format specification applied to a float. -/
def formatFixed (prec : Nat) (q : ℚ) : String :=
  let scaled : ℤ := round (q * (10 : ℚ) ^ prec)
  let sign := if scaled < 0 then ("-") else ("")
  let n := scaled.natAbs
  if prec = 0 then sign ++ natStr n
  else
    sign ++ natStr (n / 10 ^ prec) ++ "." ++
      String.mk (padZeros prec (natStr (n % 10 ^ prec)).data)

/-- Model of Python `str(float)` for rationals with a finite decimal
expansion (the only default stringification this development evaluates):
shortest exact decimal, always with at least one fractional digit. -/
def decimalStr (q : ℚ) : String :=
  let sign := if q < 0 then ("-") else ("")
  let n := q.num.natAbs
  let d := q.den
  let k := ((List.range 18).find? (fun k => (n * 10 ^ k) % d = 0)).getD 17
  let scaled := n * 10 ^ k / d
  if k = 0 then sign ++ natStr scaled ++ ".0"
  else
    sign ++ natStr (scaled / 10 ^ k) ++ "." ++
      String.mk (padZeros k (natStr (scaled % 10 ^ k)).data)

/-- Convert a digit run to its numeric value. -/
def digitsToNat (ds : List Char) : Nat :=
  ds.foldl (fun a c => a * 10 + digitVal c) 0

/-- Interpretation of one `{...}` replacement field of a Python format
string: an empty spec renders the default stringification, `:.Nf` renders
fixed-point with `N` digits; other specs fall back to the default. -/
def formatField (spec : List Char) (v : ℚ) : List Char :=
  match spec with
  | ':' :: '.' :: rest =>
    let ds := rest.takeWhile isDigitCh
    let tail := rest.dropWhile isDigitCh
    if tail = ['f'] then (formatFixed (digitsToNat ds) v).data
    else (decimalStr v).data
  | [] => (decimalStr v).data
  | _ => (decimalStr v).data

/-- Scanner for `pyFormat`: outside a replacement field (`spec = none`)
characters are copied verbatim; inside one (`spec = some acc`) characters are
collected until the closing brace, then the field is rendered. -/
def pyFormatAux (v : ℚ) : List Char → Option (List Char) → List Char
  | [], none => []
  | [], some spec => lbrace :: spec.reverse
  | c :: cs, none =>
    if c = lbrace then pyFormatAux v cs (some [])
    else c :: pyFormatAux v cs none
  | c :: cs, some spec =>
    if c = rbrace then formatField spec.reverse v ++ pyFormatAux v cs none
    else pyFormatAux v cs (some (c :: spec))

/-- Model of Python `template.format(v)` for the format strings this
repository feeds it: a template without replacement fields is returned
verbatim (`str.format` ignores unused arguments), and each `{...}` field is
rendered from `v` per `formatField`. -/
def pyFormat (template : String) (v : ℚ) : String :=
  ⟨pyFormatAux v template.data none⟩

/-- Whether a character is ASCII whitespace (stripped by Python `float`). -/
def isSpaceCh (c : Char) : Bool :=
  c = ' ' || c = '\t' || c = '\n' || c = '\r'

/-- Consume a run of decimal digits: value so far, digits seen, remainder. -/
def parseDigits : List Char → Nat → Nat → Nat × Nat × List Char
  | [], acc, k => (acc, k, [])
  | c :: cs, acc, k =>
    if isDigitCh c then parseDigits cs (acc * 10 + digitVal c) (k + 1)
    else (acc, k, c :: cs)

/-- Core of `pyFloat` on a stripped character list: optional sign, integer
digits, optional fractional digits, optional exponent; `none` when the text
is not a decimal float literal (Python raises `ValueError` there). -/
def pyFloatCore (cs : List Char) : Option ℚ :=
  let (sgn, cs₁) :=
    match cs with
    | '-' :: r => ((-1 : ℚ), r)
    | '+' :: r => ((1 : ℚ), r)
    | _ => ((1 : ℚ), cs)
  let (ip, ipCount, cs₂) := parseDigits cs₁ 0 0
  let (fp, fpCount, cs₃) :=
    match cs₂ with
    | '.' :: r => parseDigits r 0 0
    | _ => (0, 0, cs₂)
  if ipCount = 0 && fpCount = 0 then none
  else
    let mant : ℚ := sgn * ((ip : ℚ) + (fp : ℚ) / (10 : ℚ) ^ fpCount)
    match cs₃ with
    | [] => some mant
    | c :: r =>
      if c = 'e' || c = 'E' then
        let (esgn, r₁) :=
          match r with
          | '-' :: r₂ => ((-1 : ℤ), r₂)
          | '+' :: r₂ => ((1 : ℤ), r₂)
          | _ => ((1 : ℤ), r)
        let (ev, eCount, r₂) := parseDigits r₁ 0 0
        if eCount = 0 || !r₂.isEmpty then none
        else some (mant * (10 : ℚ) ^ (esgn * (ev : ℤ)))
      else none

/-- Model of Python `float(s)` on decimal literals: strips whitespace, then
parses a signed decimal with optional exponent; `none` models `ValueError`
(in particular `pyFloat "" = none`). -/
def pyFloat (s : String) : Option ℚ :=
  pyFloatCore (((s.data.dropWhile isSpaceCh).reverse.dropWhile isSpaceCh).reverse)

/-- Segment list of `lDPoissonExSolver._get_dir_name`: for each entry of the
point dict, look up the variable's format (`KeyError` when the name is not a
declared variable, `AttributeError` when the stored format is `None`, since
the code calls `.format` on it) and render `name(formatted_value)`. -/
def dirNameSegs (formats : List (String × Option String)) :
    List (String × ℚ) → Except PyError (List String)
  | [] => .ok []
  | (k, v) :: rest =>
    match dictLookup formats k with
    | none => .error .keyError
    | some none => .error .attributeError
    | some (some fmt) =>
      match dirNameSegs formats rest with
      | .error e => .error e
      | .ok segs => .ok ((k ++ "(" ++ pyFormat fmt v ++ ")") :: segs)

/-- Model of `lDPoissonExSolver._get_dir_name(variables)`: joins the per-variable
`name(formatted_value)` segments with `_`. -/
def lDPoissonExSolver._get_dir_name (formats : List (String × Option String))
    (vs : List (String × ℚ)) : Except PyError String :=
  match dirNameSegs formats vs with
  | .error e => .error e
  | .ok segs => .ok (String.intercalate ("_") segs)

instance exceptDecEq {ε α : Type} [DecidableEq ε] [DecidableEq α] :
    DecidableEq (Except ε α) :=
  fun a b =>
    match a, b with
    | .ok x, .ok y =>
      if h : x = y then isTrue (by rw [h])
      else isFalse (by intro hh; cases hh; exact h rfl)
    | .error e, .error f =>
      if h : e = f then isTrue (by rw [h])
      else isFalse (by intro hh; cases hh; exact h rfl)
    | .ok _, .error _ => isFalse (by intro hh; cases hh)
    | .error _, .ok _ => isFalse (by intro hh; cases hh)

/-- State of `data.OutputData` after `__init__`: the seven parsed series and
the two optional ground-state scalars. -/
structure OutputData where
  z : List ℚ
  energy_conduction : List ℚ
  energy_valence : List ℚ
  electric_field : List ℚ
  energy_fermi : List ℚ
  density_electron : List ℚ
  density_hole : List ℚ
  energy_ground_state : Option ℚ
  position_ground_state : Option ℚ
  deriving DecidableEq

/-- The empty `OutputData` accumulator at the start of `__init__`. -/
def OutputData.empty : OutputData :=
  ⟨[], [], [], [], [], [], [], none, none⟩

/-- Model of `float(row[name])` for the column at ordinal `i` of a `csv.DictReader`
row: a missing cell is `restval = None` and `float(None)` raises `TypeError`;
a present cell that is not a float literal raises `ValueError`. -/
def pyFloatField (row : List String) (i : Nat) : Except PyError ℚ :=
  match row[i]? with
  | none => .error .typeError
  | some s =>
    match pyFloat s with
    | none => .error .valueError
    | some q => .ok q

/-- Loop body of `OutputData.__init__` for one data row: parse and append the
seven numeric columns (ordinals 0–6; the 8th column `Nd - Na` is never read),
then seed the ground-state pair from column ordinal 8 if it is present
(`is not None`) and the pair is still unset. -/
def processRow (st : OutputData) (row : List String) : Except PyError OutputData :=
  match pyFloatField row 0 with
  | .error e => .error e
  | .ok y =>
  match pyFloatField row 1 with
  | .error e => .error e
  | .ok ec =>
  match pyFloatField row 2 with
  | .error e => .error e
  | .ok ev =>
  match pyFloatField row 3 with
  | .error e => .error e
  | .ok ef =>
  match pyFloatField row 4 with
  | .error e => .error e
  | .ok eFermi =>
  match pyFloatField row 5 with
  | .error e => .error e
  | .ok nEl =>
  match pyFloatField row 6 with
  | .error e => .error e
  | .ok nHo =>
    let st' : OutputData :=
      { st with
        z := st.z ++ [y / 10]
        energy_conduction := st.energy_conduction ++ [ec]
        energy_valence := st.energy_valence ++ [ev]
        electric_field := st.electric_field ++ [ef]
        energy_fermi := st.energy_fermi ++ [eFermi]
        density_electron := st.density_electron ++ [nEl]
        density_hole := st.density_hole ++ [nHo] }
    match row[8]? with
    | none => .ok st'
    | some s =>
      if st.energy_ground_state = none then
        match pyFloat s with
        | none => .error .valueError
        | some e =>
          .ok { st' with
                energy_ground_state := some e
                position_ground_state := some (y / 10) }
      else .ok st'

/-- The `for i, row in enumerate(reader)` loop of `OutputData.__init__` over
the data rows (header already skipped). -/
def ofRowsGo : List (List String) → OutputData → Except PyError OutputData
  | [], st => .ok st
  | r :: rs, st =>
    match processRow st r with
    | .error e => .error e
    | .ok st' => ofRowsGo rs st'

/-- Model of `OutputData.__init__` on the tab-split lines of the output file:
`csv.DictReader` skips blank rows, the enumeration skips row index 0 (the
header row), and every remaining row is processed by `processRow`. -/
def OutputData.ofRows (rows : List (List String)) : Except PyError OutputData :=
  ofRowsGo ((rows.filter (fun r => !r.isEmpty)).drop 1) OutputData.empty

/-- The filesystem/simulator environment `lDPoissonExSolver` runs against:
which of the three expected output files exist next to the executable after
an invocation with a given identifier, and the tab-split contents of the
`_Out.txt` file. -/
structure SimEnv where
  has_out : String → Bool
  has_status : String → Bool
  has_wave : String → Bool
  out_rows : String → List (List String)

/-- Model of `lDPoissonExSolver._run_single`: build the identifier with
`_get_dir_name`, and after the external invocation relocate the input file
and the three expected outputs (`shutil.move` raises `FileNotFoundError`
when an expected output file is missing), then parse the relocated
`_Out.txt` into an `OutputData`. -/
def lDPoissonExSolver._run_single (env : SimEnv)
    (formats : List (String × Option String)) (point : List (String × ℚ)) :
    Except PyError OutputData :=
  match lDPoissonExSolver._get_dir_name formats point with
  | .error e => .error e
  | .ok ident =>
    if env.has_out ident && env.has_status ident && env.has_wave ident then
      OutputData.ofRows (env.out_rows ident)
    else .error .fileNotFoundError

/-- A persisted `.npy` artifact: the array shape and the flat row-major
data (`none` entries model Python `None` scalars collected into the array). -/
structure NpArray where
  shape : List Nat
  data : List (Option ℚ)
  deriving DecidableEq

/-- The simulation loop of `lDPoissonExSolver.run`: process every sweep point
in iteration order, accumulating each point's two ground-state scalars; the
first exception aborts the whole loop. -/
def runLoop (env : SimEnv) (formats : List (String × Option String)) :
    List (List (String × ℚ)) → Except PyError (List (Option ℚ × Option ℚ))
  | [] => .ok []
  | p :: ps =>
    match lDPoissonExSolver._run_single env formats p with
    | .error e => .error e
    | .ok od =>
      match runLoop env formats ps with
      | .error e => .error e
      | .ok rest =>
        .ok ((od.energy_ground_state, od.position_ground_state) :: rest)

/-- Model of `lDPoissonExSolver.run`: run the sweep loop, then (finalization, reached
only when every point succeeded) persist one flat array per variable plus the
two ground-state arrays reshaped to `shape_variables`.  The returned list is
the set of `np.save`d artifacts; an exception anywhere in the loop propagates
and nothing is persisted. -/
def lDPoissonExSolver.run (env : SimEnv) (m : ParamsManager) :
    Except PyError (List (String × NpArray)) :=
  match runLoop env m._variable_formats m.generate_variables with
  | .error e => .error e
  | .ok scalars =>
    .ok ((m._variables.map
            (fun p => (p.1 ++ ".npy", NpArray.mk [p.2.length] (p.2.map some)))) ++
         [("energies_ground_states.npy",
           NpArray.mk m.shape_variables (scalars.map (fun s => s.1))),
          ("positions_ground_states.npy",
           NpArray.mk m.shape_variables (scalars.map (fun s => s.2)))])

/-! ## Auxiliary lemmas and claim statements -/

lemma foldr_blocks_length (rest : List (List ℚ)) (l : List ℚ) :
    (l.foldr (fun v acc => rest.map (fun t => v :: t) ++ acc) []).length =
      l.length * rest.length := by
  induction l with
  | nil => simp
  | cons v l ih =>
    simp only [List.foldr_cons, List.length_append, List.length_map, ih,
      List.length_cons]
    ring

lemma product_length (lss : List (List ℚ)) :
    (product lss).length = (lss.map List.length).prod := by
  induction lss with
  | nil => rfl
  | cons l ls ih =>
    have hdef : product (l :: ls) =
        l.foldr (fun v acc => (product ls).map (fun t => v :: t) ++ acc) [] := rfl
    rw [hdef, foldr_blocks_length, ih]
    simp [List.map_cons, List.prod_cons]

/-- C1: for every list of constants and every list of variables, the number
of points yielded by `ParamsManager.generate_variables` equals the product of
the `ParamsManager.shape_variables` tuple, and with zero declared variables
the iteration yields exactly the one point `_constants`. -/
theorem generate_variables_count (cs : List Constant) (vs : List Variable) :
    ((ParamsManager.init cs vs).generate_variables).length =
      ((ParamsManager.init cs vs).shape_variables).prod ∧
    (vs = [] →
      (ParamsManager.init cs vs).generate_variables =
        [(ParamsManager.init cs vs)._constants]) := by
  constructor
  · set m := ParamsManager.init cs vs with hm
    by_cases h : m._variables.isEmpty
    · have hnil : m._variables = [] := List.isEmpty_iff.mp h
      simp [ParamsManager.generate_variables, ParamsManager.shape_variables,
        h, hnil]
    · simp only [ParamsManager.generate_variables, ParamsManager.shape_variables,
        h, if_neg, Bool.false_eq_true, ite_false, List.length_map,
        product_length, List.map_map]
      rfl
  · intro h
    subst h
    rfl

theorem generate_variables_count_witness :
    ((ParamsManager.init [⟨"T", 300⟩] []).generate_variables).length =
      ((ParamsManager.init [⟨"T", 300⟩] []).shape_variables).prod ∧
    (ParamsManager.init [⟨"T", 300⟩] []).generate_variables =
      [(ParamsManager.init [⟨"T", 300⟩] [])._constants] :=
  ⟨(generate_variables_count [⟨"T", 300⟩] []).1,
   (generate_variables_count [⟨"T", 300⟩] []).2 rfl⟩

/-- Row-major (C-order) flat index of multi-index `idx` in an array of shape
`shape`: the stride of each axis is the product of the later extents.  This is
the index at which `np.reshape` places the multi-index when reshaping a flat
buffer, and `np.ndarray.flatten`'s inverse. -/
def flatIdx : List Nat → List Nat → Nat
  | _ :: ss, i :: is => i * ss.prod + flatIdx ss is
  | _, _ => 0

/-- Element at multi-index `idx` of the row-major reshape of the flat buffer
`flat` into `shape` (as `lDPoissonExSolver.run` reshapes its accumulation
buffers into `shape_variables`). -/
def reshapeGet {α : Type} (flat : List α) (shape idx : List Nat) : Option α :=
  flat[flatIdx shape idx]?

/-- Pick, for each axis, the `i_k`-th value of the `k`-th value list. -/
def selectIdx : List (List ℚ) → List Nat → Option (List ℚ)
  | [], [] => some []
  | l :: ls, i :: is =>
    match l[i]?, selectIdx ls is with
    | some v, some vs => some (v :: vs)
    | _, _ => none
  | _, _ => none

lemma foldr_block_get (rest : List (List ℚ)) :
    ∀ (l : List ℚ) (i r : Nat) (v : ℚ), l[i]? = some v → r < rest.length →
      (l.foldr (fun v acc => rest.map (fun t => v :: t) ++ acc) [])[
          i * rest.length + r]? =
        (rest[r]?).map (fun t => v :: t) := by
  intro l
  induction l with
  | nil => intro i r v h _; simp at h
  | cons x l ih =>
    intro i r v h hr
    cases i with
    | zero =>
      have hx : x = v := by simpa using h
      subst hx
      simp only [List.foldr_cons, Nat.zero_mul, Nat.zero_add]
      rw [List.getElem?_append_left (by simpa using hr), List.getElem?_map]
    | succ i =>
      have h' : l[i]? = some v := by simpa using h
      simp only [List.foldr_cons]
      rw [List.getElem?_append_right (by simp [Nat.succ_mul]; omega)]
      have harith : (i + 1) * rest.length + r -
          (rest.map (fun t => x :: t)).length = i * rest.length + r := by
        simp [Nat.succ_mul]; omega
      rw [harith, ih i r v h' hr]

lemma product_get :
    ∀ (lss : List (List ℚ)) (is : List Nat) (vs : List ℚ),
      selectIdx lss is = some vs →
      (product lss)[flatIdx (lss.map List.length) is]? = some vs := by
  intro lss
  induction lss with
  | nil =>
    intro is vs h
    cases is with
    | nil =>
      have : vs = [] := by simpa [selectIdx] using h.symm
      subst this
      rfl
    | cons i is => simp [selectIdx] at h
  | cons l ls ih =>
    intro is vs h
    cases is with
    | nil => simp [selectIdx] at h
    | cons i is' =>
      cases hv : l[i]? with
      | none => simp [selectIdx, hv] at h
      | some v =>
        cases hs : selectIdx ls is' with
        | none => simp [selectIdx, hv, hs] at h
        | some vs' =>
          have hvs : vs = v :: vs' := by
            have := h
            simp [selectIdx, hv, hs] at this
            exact this.symm
          have hrec := ih is' vs' hs
          have hlen : flatIdx (ls.map List.length) is' < (product ls).length := by
            by_contra hge
            push_neg at hge
            rw [List.getElem?_eq_none hge] at hrec
            exact Option.noConfusion hrec
          have hdef : product (l :: ls) =
              l.foldr (fun v acc => (product ls).map (fun t => v :: t) ++ acc)
                [] := rfl
          have hflat : flatIdx ((l :: ls).map List.length) (i :: is') =
              i * (product ls).length + flatIdx (ls.map List.length) is' := by
            simp [flatIdx, product_length]
          rw [hdef, hflat, foldr_block_get (product ls) l i _ v hv hlen, hrec]
          simp [hvs]

lemma dictInsert_ne_nil {α : Type} (d : List (String × α)) (k : String)
    (v : α) : dictInsert d k v ≠ [] := by
  cases d with
  | nil => simp [dictInsert]
  | cons p rest =>
    simp only [dictInsert]
    split <;> simp

lemma foldl_dictInsert_ne_nil {β : Type} (key : β → String)
    (val : β → List ℚ) :
    ∀ (bs : List β) (d : List (String × List ℚ)), d ≠ [] →
      bs.foldl (fun d b => dictInsert d (key b) (val b)) d ≠ [] := by
  intro bs
  induction bs with
  | nil => intro d hd; simpa using hd
  | cons b bs ih =>
    intro d hd
    exact ih (dictInsert d (key b) (val b)) (dictInsert_ne_nil d (key b) (val b))

lemma init_variables_ne_nil (cs : List Constant) (v : Variable)
    (vs : List Variable) : (ParamsManager.init cs (v :: vs))._variables ≠ [] := by
  have : (ParamsManager.init cs (v :: vs))._variables =
      vs.foldl (fun d w => dictInsert d w.name (materialize w.value))
        (dictInsert [] v.name (materialize v.value)) := rfl
  rw [this]
  exact foldl_dictInsert_ne_nil (fun w => w.name)
    (fun w => materialize w.value) vs _
    (dictInsert_ne_nil [] v.name (materialize v.value))

/-- C2: with at least one declared variable, `generate_variables` iterates the
last-declared variable fastest: filling a flat buffer with `f point` in
iteration order and reshaping it to `shape_variables` row-major (as
`lDPoissonExSolver.run` does with `np.reshape`) places at multi-index `idx`
the value of `f` at the point whose `k`-th variable took its `idx_k`-th
value. -/
theorem generate_variables_reshape_roundtrip {α : Type}
    (f : List (String × ℚ) → α) (cs : List Constant) (vs : List Variable)
    (hvs : vs ≠ []) (idx : List Nat) (vals : List ℚ)
    (hsel : selectIdx
        ((ParamsManager.init cs vs)._variables.map (fun p => p.2)) idx =
      some vals) :
    reshapeGet (((ParamsManager.init cs vs).generate_variables).map f)
        ((ParamsManager.init cs vs).shape_variables) idx =
      some (f (((ParamsManager.init cs vs)._variables.map (fun p => p.1)).zip
        vals)) := by
  set m := ParamsManager.init cs vs with hm
  have hne : m._variables ≠ [] := by
    cases vs with
    | nil => exact absurd rfl hvs
    | cons v vs' => exact init_variables_ne_nil cs v vs'
  have hemp : m._variables.isEmpty = false := by
    rw [Bool.eq_false_iff]
    intro h
    exact hne (List.isEmpty_iff.mp h)
  have hshape : m.shape_variables =
      (m._variables.map (fun p => p.2)).map List.length := by
    rw [List.map_map]
    rfl
  unfold reshapeGet
  simp only [ParamsManager.generate_variables, hemp, Bool.false_eq_true,
    if_false, List.map_map, List.getElem?_map]
  rw [hshape, product_get (m._variables.map (fun p => p.2)) idx vals hsel]
  rfl

theorem generate_variables_reshape_roundtrip_witness :
    reshapeGet
        (((ParamsManager.init []
            [⟨"A", .list [10, 20], none⟩,
             ⟨"B", .list [1, 2, 3], none⟩]).generate_variables).map id)
        ((ParamsManager.init []
            [⟨"A", .list [10, 20], none⟩,
             ⟨"B", .list [1, 2, 3], none⟩]).shape_variables) [1, 2] =
      some [("A", (20 : ℚ)), ("B", 3)] :=
  generate_variables_reshape_roundtrip id []
    [⟨"A", .list [10, 20], none⟩, ⟨"B", .list [1, 2, 3], none⟩]
    (List.cons_ne_nil _ _) [1, 2] [20, 3] rfl

/-- C3 counterexample: with a duplicated constant name and a duplicated
variable name, `ParamsManager.__init__` does not fail (there is no
name-collision check and no `ConfigError` class in the code): construction
succeeds and the iteration happily generates a sweep point. -/
theorem init_duplicate_no_error :
    (ParamsManager.init [⟨"a", 1⟩, ⟨"a", 2⟩]
        [⟨"V", .list [1], none⟩, ⟨"V", .list [2], none⟩])._constants =
      [("a", 2)] ∧
    (ParamsManager.init [⟨"a", 1⟩, ⟨"a", 2⟩]
        [⟨"V", .list [1], none⟩, ⟨"V", .list [2], none⟩]).generate_variables =
      [[("V", 2)]] :=
  ⟨rfl, rfl⟩

/-- C3 (amended): constructing the parameter space with colliding declared
names never raises: `ParamsManager.__init__` performs no duplicate check, and
a repeated constant (or variable) name silently keeps the first declaration's
position with the last declaration's value (Python dict assignment). -/
theorem init_duplicate_last_wins (n nv : String) (v₁ v₂ : ℚ)
    (l₁ l₂ : List ℚ) (f₁ f₂ : Option String) :
    (ParamsManager.init [⟨n, v₁⟩, ⟨n, v₂⟩]
        [⟨nv, .list l₁, f₁⟩, ⟨nv, .list l₂, f₂⟩])._constants = [(n, v₂)] ∧
    (ParamsManager.init [⟨n, v₁⟩, ⟨n, v₂⟩]
        [⟨nv, .list l₁, f₁⟩, ⟨nv, .list l₂, f₂⟩])._variables = [(nv, l₂)] ∧
    (ParamsManager.init [⟨n, v₁⟩, ⟨n, v₂⟩]
        [⟨nv, .list l₁, f₁⟩, ⟨nv, .list l₂, f₂⟩])._variable_formats =
      [(nv, f₂)] := by
  refine ⟨?_, ?_, ?_⟩ <;> simp [ParamsManager.init, dictInsert, materialize]

/-- C4 counterexample: with the printf-style format `"%.1f"` of the spec's
example, `str.format` finds no replacement field and returns the format
string verbatim, so the identifier for `V = 0.0` is `V(%.1f)`, not the
claimed `V(0.0)`. -/
theorem get_dir_name_percent_format :
    lDPoissonExSolver._get_dir_name [("V", some ("%.1f"))] [("V", 0)] =
      .ok ("V(%.1f)") ∧ ("V(%.1f)" : String) ≠ "V(0.0)" :=
  ⟨rfl, by decide⟩

/-- C4 (amended): for every point whose entries all have a stored format
string, `_get_dir_name` produces exactly the `name(formatted_value)` segments
of the point's variables, joined by `_`, in the point's (declaration) order —
constants never appear — where the value is rendered by Python
`str.format`; with a brace-style format such as `"{:.1f}"` on values
`0.0` and `0.5` this yields `V(0.0)` and `V(0.5)`, while a printf-style
`"%.1f"` is reproduced verbatim. -/
theorem get_dir_name_segments (formats : List (String × Option String))
    (fmtF : String → String) (point : List (String × ℚ))
    (hfm : ∀ kv ∈ point, dictLookup formats kv.1 = some (some (fmtF kv.1))) :
    lDPoissonExSolver._get_dir_name formats point =
      .ok (String.intercalate ("_")
        (point.map (fun kv => kv.1 ++ "(" ++ pyFormat (fmtF kv.1) kv.2 ++ ")"))) := by
  suffices h : dirNameSegs formats point =
      .ok (point.map
        (fun kv => kv.1 ++ "(" ++ pyFormat (fmtF kv.1) kv.2 ++ ")")) by
    simp [lDPoissonExSolver._get_dir_name, h]
  induction point with
  | nil => rfl
  | cons kv rest ih =>
    have hk := hfm kv (List.mem_cons_self kv rest)
    have hrest := ih (fun kv' hkv' => hfm kv' (List.mem_cons_of_mem kv hkv'))
    cases kv with
    | mk k v => simp [dirNameSegs, hk, hrest]

unseal Rat.mul Rat.add Rat.sub Rat.inv Rat.ofScientific in
theorem get_dir_name_segments_witness :
    lDPoissonExSolver._get_dir_name [("V", some ("\x7b:.1f\x7d"))]
        [("V", (0 : ℚ))] = .ok ("V(0.0)") := by
  have hfm : ∀ kv ∈ [("V", (0 : ℚ))],
      dictLookup [("V", some ("\x7b:.1f\x7d"))] kv.1 =
        some (some ((fun _ => "\x7b:.1f\x7d") kv.1)) := by
    intro kv hkv
    simp only [List.mem_singleton] at hkv
    subst hkv
    rfl
  rw [get_dir_name_segments [("V", some ("\x7b:.1f\x7d"))]
    (fun _ => "\x7b:.1f\x7d") [("V", (0 : ℚ))] hfm]
  decide

/-- C5: when a variable's format specifier is omitted (`format: None` is the
`models.Variable` default), `_get_dir_name` does not fall back to a default
stringification: `format_str.format(v)` is attempted on `None` and raises
`AttributeError`, so identifier construction fails. -/
theorem get_dir_name_none_format_raises :
    lDPoissonExSolver._get_dir_name [("V", none)] [("V", 1)] =
      .error .attributeError :=
  rfl

/-- C6: for a range spec with positive step and `start < end`, the value list
materialized via `np.arange` in `ParamsManager.__init__` has exactly
`ceil((end - start) / step)` elements and every generated value is strictly
below `end` (exact rational arithmetic; IEEE rounding is out of scope). -/
theorem materialize_arange_count_and_bound (a : Array)
    (hstep : 0 < a.step) (hlt : a.start < a.«end») :
    (materialize (.array a)).length =
      (⌈(a.«end» - a.start) / a.step⌉).toNat ∧
    ∀ v ∈ materialize (.array a), v < a.«end» := by
  constructor
  · show ((List.range (⌈(a.«end» - a.start) / a.step⌉).toNat).map
        (fun (i : ℕ) => a.start + (i : ℚ) * a.step)).length = _
    rw [List.length_map, List.length_range]
  · intro v hv
    have hv' : v ∈ (List.range (⌈(a.«end» - a.start) / a.step⌉).toNat).map
        (fun (i : ℕ) => a.start + (i : ℚ) * a.step) := hv
    rw [List.mem_map] at hv'
    obtain ⟨i, hi, rfl⟩ := hv'
    rw [List.mem_range] at hi
    have hi' : (i : ℤ) < ⌈(a.«end» - a.start) / a.step⌉ := Int.lt_toNat.mp hi
    have hx : (i : ℚ) < (a.«end» - a.start) / a.step := by
      exact_mod_cast Int.lt_ceil.mp hi'
    have hmul : (i : ℚ) * a.step < a.«end» - a.start :=
      (lt_div_iff₀ hstep).mp hx
    linarith

theorem materialize_arange_witness :
    (materialize (.array ⟨0, 1, 1/4⟩)).length =
      (⌈((1 : ℚ) - 0) / (1/4)⌉).toNat ∧
    ∀ v ∈ materialize (.array ⟨0, 1, 1/4⟩), v < 1 :=
  materialize_arange_count_and_bound ⟨0, 1, 1/4⟩ (by norm_num) (by norm_num)

/-- The data rows an output file contributes: blank rows are dropped by
`csv.DictReader` and the first remaining row (the header row) is skipped. -/
def dataRows (rows : List (List String)) : List (List String) :=
  (rows.filter (fun r => !r.isEmpty)).drop 1

/-- The parsed numeric value of the cell at ordinal `i` of a row, when the
cell is present and parses. -/
def rowNum (r : List String) (i : Nat) : Option ℚ :=
  (r[i]?).bind pyFloat

/-- The unit-converted position value of a row: the parsed first cell
divided by ten (Å → nm). -/
def rowZval (r : List String) : Option ℚ :=
  (rowNum r 0).map (fun y => y / 10)

/-- Whether a row's ninth cell (ordinal 8, the eigen-energy column) is
present and non-empty. -/
def has9 (r : List String) : Bool :=
  match r[8]? with
  | some s => s != ""
  | none => false

/-- The first data row whose ninth cell is present and non-empty. -/
def first9 (rows : List (List String)) : Option (List String) :=
  rows.find? has9

lemma pyFloatField_ok (r : List String) (i : Nat) (q : ℚ) :
    pyFloatField r i = .ok q ↔ rowNum r i = some q := by
  unfold pyFloatField rowNum
  cases h : r[i]? with
  | none => simp [h]
  | some s => cases hp : pyFloat s <;> simp [h, hp]

lemma pyFloat_ne_empty (s : String) (e : ℚ) (h : pyFloat s = some e) :
    (s != "") = true := by
  rcases eq_or_ne s ("") with rfl | hs
  · rw [show pyFloat ("") = none from rfl] at h
    exact Option.noConfusion h
  · simp [bne_iff_ne, hs]

lemma processRow_ok {st st' : OutputData} {r : List String}
    (h : processRow st r = .ok st') :
    ∃ y, rowNum r 0 = some y ∧
      st'.z = st.z ++ [y / 10] ∧
      st'.energy_conduction.length = st.energy_conduction.length + 1 ∧
      st'.energy_valence.length = st.energy_valence.length + 1 ∧
      st'.electric_field.length = st.electric_field.length + 1 ∧
      st'.energy_fermi.length = st.energy_fermi.length + 1 ∧
      st'.density_electron.length = st.density_electron.length + 1 ∧
      st'.density_hole.length = st.density_hole.length + 1 ∧
      (st.energy_ground_state.isSome →
        st'.energy_ground_state = st.energy_ground_state ∧
        st'.position_ground_state = st.position_ground_state) ∧
      (st.energy_ground_state = none →
        (has9 r = true →
          ∃ e, rowNum r 8 = some e ∧ st'.energy_ground_state = some e ∧
            st'.position_ground_state = some (y / 10)) ∧
        (has9 r = false →
          st'.energy_ground_state = none ∧
          st'.position_ground_state = st.position_ground_state)) := by
  unfold processRow at h
  split at h
  next e heq0 => exact Except.noConfusion h
  next y heq0 =>
  split at h
  next e heq1 => exact Except.noConfusion h
  next ec heq1 =>
  split at h
  next e heq2 => exact Except.noConfusion h
  next ev heq2 =>
  split at h
  next e heq3 => exact Except.noConfusion h
  next ef heq3 =>
  split at h
  next e heq4 => exact Except.noConfusion h
  next eFermi heq4 =>
  split at h
  next e heq5 => exact Except.noConfusion h
  next nEl heq5 =>
  split at h
  next e heq6 => exact Except.noConfusion h
  next nHo heq6 =>
  refine ⟨y, (pyFloatField_ok r 0 y).mp heq0, ?_⟩
  cases h8 : r[8]? with
  | none =>
    simp only [h8, Except.ok.injEq] at h
    subst h
    refine ⟨rfl, by simp, by simp, by simp, by simp, by simp, by simp, ?_, ?_⟩
    · intro _
      exact ⟨rfl, rfl⟩
    · intro h0e
      constructor
      · intro h9
        simp [has9, h8] at h9
      · intro _
        exact ⟨h0e, rfl⟩
  | some s =>
    simp only [h8] at h
    by_cases hg : st.energy_ground_state = none
    · rw [if_pos hg] at h
      cases hp : pyFloat s with
      | none =>
        simp only [hp] at h
        exact Except.noConfusion h
      | some e =>
        simp only [hp, Except.ok.injEq] at h
        subst h
        refine ⟨rfl, by simp, by simp, by simp, by simp, by simp, by simp, ?_, ?_⟩
        · intro hs
          simp [hg] at hs
        · intro _
          constructor
          · intro _
            refine ⟨e, ?_, rfl, rfl⟩
            simp [rowNum, h8, hp]
          · intro h9f
            have hne := pyFloat_ne_empty s e hp
            simp [has9, h8, hne] at h9f
    · rw [if_neg hg] at h
      simp only [Except.ok.injEq] at h
      subst h
      refine ⟨rfl, by simp, by simp, by simp, by simp, by simp, by simp, ?_, ?_⟩
      · intro _
        exact ⟨rfl, rfl⟩
      · intro h0e
        exact absurd h0e hg

lemma some_getD_of_isSome {o : Option ℚ} (h : o.isSome) :
    some (o.getD 0) = o := by
  cases o with
  | none => simp at h
  | some v => rfl

lemma ofRowsGo_series :
    ∀ (rows : List (List String)) (st0 st : OutputData),
      ofRowsGo rows st0 = .ok st →
      st.z = st0.z ++ rows.map (fun r => (rowZval r).getD 0) ∧
      (∀ r ∈ rows, (rowZval r).isSome) ∧
      st.energy_conduction.length = st0.energy_conduction.length + rows.length ∧
      st.energy_valence.length = st0.energy_valence.length + rows.length ∧
      st.electric_field.length = st0.electric_field.length + rows.length ∧
      st.energy_fermi.length = st0.energy_fermi.length + rows.length ∧
      st.density_electron.length = st0.density_electron.length + rows.length ∧
      st.density_hole.length = st0.density_hole.length + rows.length := by
  intro rows
  induction rows with
  | nil =>
    intro st0 st h
    obtain rfl : st0 = st := by
      simpa [ofRowsGo] using h
    simp
  | cons r rs ih =>
    intro st0 st h
    cases hp : processRow st0 r with
    | error e =>
      rw [ofRowsGo, hp] at h
      exact Except.noConfusion h
    | ok st1 =>
      rw [ofRowsGo, hp] at h
      obtain ⟨y, hy, hz, hlec, hlev, hlef, hleff, hlne, hlnh, -, -⟩ :=
        processRow_ok hp
      obtain ⟨ihz, ihsome, ihec, ihev, ihef, iheff, ihne, ihnh⟩ := ih st1 st h
      refine ⟨?_, ?_, ?_, ?_, ?_, ?_, ?_, ?_⟩
      · rw [ihz, hz]
        simp [List.append_assoc, rowZval, hy]
      · intro r' hr'
        rcases List.mem_cons.mp hr' with rfl | hmem
        · simp [rowZval, hy]
        · exact ihsome r' hmem
      · rw [ihec, hlec, List.length_cons]; omega
      · rw [ihev, hlev, List.length_cons]; omega
      · rw [ihef, hlef, List.length_cons]; omega
      · rw [iheff, hleff, List.length_cons]; omega
      · rw [ihne, hlne, List.length_cons]; omega
      · rw [ihnh, hlnh, List.length_cons]; omega

lemma ofRowsGo_ground :
    ∀ (rows : List (List String)) (st0 st : OutputData),
      ofRowsGo rows st0 = .ok st →
      (st0.energy_ground_state.isSome →
        st.energy_ground_state = st0.energy_ground_state ∧
        st.position_ground_state = st0.position_ground_state) ∧
      (st0.energy_ground_state = none → st0.position_ground_state = none →
        st.energy_ground_state = (first9 rows).bind (fun r => rowNum r 8) ∧
        st.position_ground_state = (first9 rows).bind rowZval ∧
        (∀ r', first9 rows = some r' →
          (rowNum r' 8).isSome ∧ (rowZval r').isSome)) := by
  intro rows
  induction rows with
  | nil =>
    intro st0 st h
    obtain rfl : st0 = st := by
      simpa [ofRowsGo] using h
    refine ⟨fun _ => ⟨rfl, rfl⟩, fun h1 h2 => ⟨?_, ?_, ?_⟩⟩
    · simpa [first9] using h1
    · simpa [first9] using h2
    · intro r' hr'
      simp [first9] at hr'
  | cons r rs ih =>
    intro st0 st h
    cases hp : processRow st0 r with
    | error e =>
      rw [ofRowsGo, hp] at h
      exact Except.noConfusion h
    | ok st1 =>
      rw [ofRowsGo, hp] at h
      obtain ⟨y, hy, -, -, -, -, -, -, -, hkeep, hseed⟩ := processRow_ok hp
      obtain ⟨ihkeep, ihseed⟩ := ih st1 st h
      constructor
      · intro hs0
        obtain ⟨he1, hp1⟩ := hkeep hs0
        have hs1 : st1.energy_ground_state.isSome := by
          rw [he1]; exact hs0
        obtain ⟨he2, hp2⟩ := ihkeep hs1
        exact ⟨by rw [he2, he1], by rw [hp2, hp1]⟩
      · intro h0e h0p
        obtain ⟨hseedT, hseedF⟩ := hseed h0e
        cases h9 : has9 r with
        | true =>
          obtain ⟨e, h8, he1, hp1⟩ := hseedT h9
          have hs1 : st1.energy_ground_state.isSome := by
            rw [he1]; rfl
          obtain ⟨he2, hp2⟩ := ihkeep hs1
          have hf : first9 (r :: rs) = some r :=
            List.find?_cons_of_pos rs (by rw [h9])
          refine ⟨?_, ?_, ?_⟩
          · rw [he2, he1, hf]
            simp [h8]
          · rw [hp2, hp1, hf]
            simp [rowZval, hy]
          · intro r' hr'
            rw [hf] at hr'
            obtain rfl : r = r' := by injection hr'
            exact ⟨by simp [h8], by simp [rowZval, hy]⟩
        | false =>
          obtain ⟨he1, hp1⟩ := hseedF h9
          have h1p : st1.position_ground_state = none := by
            rw [hp1, h0p]
          obtain ⟨he2, hp2, hw⟩ := ihseed he1 h1p
          have hf : first9 (r :: rs) = first9 rs :=
            List.find?_cons_of_neg rs (by rw [h9]; simp)
          exact ⟨by rw [he2, hf], by rw [hp2, hf],
            fun r' hr' => hw r' (hf ▸ hr')⟩

/-- C7: in every successfully parsed output file, the ground-state pair is a
function of the first data row whose ninth (eigen-energy) column is present
and non-empty — so no subsequent row, with or without a ninth column, changes
it. -/
theorem output_ground_state_first_nonempty (rows : List (List String))
    (st : OutputData) (h : OutputData.ofRows rows = .ok st) :
    st.energy_ground_state =
      (first9 (dataRows rows)).bind (fun r => rowNum r 8) ∧
    st.position_ground_state = (first9 (dataRows rows)).bind rowZval := by
  have h' : ofRowsGo (dataRows rows) OutputData.empty = .ok st := h
  obtain ⟨-, hg⟩ := ofRowsGo_ground (dataRows rows) OutputData.empty st h'
  obtain ⟨he, hpos, -⟩ := hg rfl rfl
  exact ⟨he, hpos⟩

/-- C8: every successfully parsed output file contributes one entry per
non-header data row to each of the seven series (row 0 is skipped), and each
entry of the position series is the file's first-column value divided by
ten. -/
theorem output_series_parse (rows : List (List String)) (st : OutputData)
    (h : OutputData.ofRows rows = .ok st) :
    st.z.length = (dataRows rows).length ∧
    st.energy_conduction.length = (dataRows rows).length ∧
    st.energy_valence.length = (dataRows rows).length ∧
    st.electric_field.length = (dataRows rows).length ∧
    st.energy_fermi.length = (dataRows rows).length ∧
    st.density_electron.length = (dataRows rows).length ∧
    st.density_hole.length = (dataRows rows).length ∧
    ∀ (j : Nat) (r : List String),
      (dataRows rows)[j]? = some r → st.z[j]? = rowZval r := by
  have h' : ofRowsGo (dataRows rows) OutputData.empty = .ok st := h
  obtain ⟨hz, hsome, hec, hev, hef, heff, hne, hnh⟩ :=
    ofRowsGo_series (dataRows rows) OutputData.empty st h'
  have hz' : st.z = (dataRows rows).map (fun r => (rowZval r).getD 0) := by
    simpa [OutputData.empty] using hz
  refine ⟨by rw [hz']; simp, by simpa [OutputData.empty] using hec,
    by simpa [OutputData.empty] using hev, by simpa [OutputData.empty] using hef,
    by simpa [OutputData.empty] using heff, by simpa [OutputData.empty] using hne,
    by simpa [OutputData.empty] using hnh, ?_⟩
  intro j r hj
  rw [hz', List.getElem?_map, hj]
  exact some_getD_of_isSome (hsome r (List.getElem?_mem hj))

/-- C10: in every successfully parsed output file the two derived scalars are
coherent: the ground-state energy is `None` iff the ground-state position is,
and when set, the position is the divided-by-ten first-column value of the
very row that supplied the energy. -/
theorem output_ground_state_coherent (rows : List (List String))
    (st : OutputData) (h : OutputData.ofRows rows = .ok st) :
    (st.energy_ground_state = none ↔ st.position_ground_state = none) ∧
    ∀ e, st.energy_ground_state = some e →
      ∃ r, first9 (dataRows rows) = some r ∧ rowNum r 8 = some e ∧
        st.position_ground_state = rowZval r := by
  have h' : ofRowsGo (dataRows rows) OutputData.empty = .ok st := h
  obtain ⟨-, hg⟩ := ofRowsGo_ground (dataRows rows) OutputData.empty st h'
  obtain ⟨he, hpos, hw⟩ := hg rfl rfl
  cases hf : first9 (dataRows rows) with
  | none =>
    rw [hf] at he hpos
    simp only [Option.none_bind] at he hpos
    refine ⟨by rw [he, hpos], ?_⟩
    intro e hee
    rw [he] at hee
    exact Option.noConfusion hee
  | some r =>
    rw [hf] at he hpos
    simp only [Option.some_bind] at he hpos
    obtain ⟨h8s, hzs⟩ := hw r hf
    have hes : st.energy_ground_state.isSome := by rw [he]; exact h8s
    have hps : st.position_ground_state.isSome := by rw [hpos]; exact hzs
    refine ⟨⟨fun hn => by simp [hn] at hes, fun hn => by simp [hn] at hps⟩, ?_⟩
    intro e hee
    refine ⟨r, rfl, ?_, hpos⟩
    rw [← he]
    exact hee

/-- A small output file: a header row and two data rows, both with a
populated ninth (eigen-energy) column. -/
def demoRows : List (List String) :=
  [["h"],
   ["10", "1", "2", "3", "4", "5", "6", "7", "0.25"],
   ["20", "1", "2", "3", "4", "5", "6", "7", "0.75"]]

/-- The parse result of `demoRows`. -/
def demoSt : OutputData :=
  ⟨[1, 2], [1, 1], [2, 2], [3, 3], [4, 4], [5, 5], [6, 6],
   some (1/4), some 1⟩

unseal Rat.mul Rat.add Rat.sub Rat.inv Rat.ofScientific in
theorem output_ground_state_first_nonempty_witness :
    ∃ st, OutputData.ofRows demoRows = .ok st ∧
      st.energy_ground_state =
        (first9 (dataRows demoRows)).bind (fun r => rowNum r 8) ∧
      st.position_ground_state = (first9 (dataRows demoRows)).bind rowZval := by
  have h : OutputData.ofRows demoRows = .ok demoSt := by decide
  exact ⟨demoSt, h, output_ground_state_first_nonempty demoRows demoSt h⟩

unseal Rat.mul Rat.add Rat.sub Rat.inv Rat.ofScientific in
theorem output_ground_state_coherent_witness :
    ∃ st, OutputData.ofRows demoRows = .ok st ∧
      (st.energy_ground_state = none ↔ st.position_ground_state = none) ∧
      ∀ e, st.energy_ground_state = some e →
        ∃ r, first9 (dataRows demoRows) = some r ∧ rowNum r 8 = some e ∧
          st.position_ground_state = rowZval r := by
  have h : OutputData.ofRows demoRows = .ok demoSt := by decide
  exact ⟨demoSt, h, output_ground_state_coherent demoRows demoSt h⟩

/-- A well-formed output file with a header row and three data rows and no
eigen-energy column. -/
def demoRows3 : List (List String) :=
  [["h"],
   ["10", "1", "2", "3", "4", "5", "6", "7"],
   ["20", "1.5", "2.5", "3.5", "4.5", "5.5", "6.5", "7.5"],
   ["30", "1", "2", "3", "4", "5", "6", "7"]]

/-- The parse result of `demoRows3`. -/
def demoSt3 : OutputData :=
  ⟨[1, 2, 3], [1, 3/2, 1], [2, 5/2, 2], [3, 7/2, 3], [4, 9/2, 4],
   [5, 11/2, 5], [6, 13/2, 6], none, none⟩

unseal Rat.mul Rat.add Rat.sub Rat.inv Rat.ofScientific in
theorem output_series_parse_witness :
    (dataRows demoRows3).length = 3 ∧
    ∃ st, OutputData.ofRows demoRows3 = .ok st ∧
      st.z.length = (dataRows demoRows3).length ∧
      st.energy_conduction.length = (dataRows demoRows3).length ∧
      st.energy_valence.length = (dataRows demoRows3).length ∧
      st.electric_field.length = (dataRows demoRows3).length ∧
      st.energy_fermi.length = (dataRows demoRows3).length ∧
      st.density_electron.length = (dataRows demoRows3).length ∧
      st.density_hole.length = (dataRows demoRows3).length ∧
      ∀ (j : Nat) (r : List String),
        (dataRows demoRows3)[j]? = some r → st.z[j]? = rowZval r := by
  have h : OutputData.ofRows demoRows3 = .ok demoSt3 := by decide
  exact ⟨by decide, demoSt3, h, output_series_parse demoRows3 demoSt3 h⟩

/-- C9: if every sweep point before `p` succeeds and `p`'s identifier is
built but one of `p`'s expected simulator output files is missing after the
invocation, then `run` aborts with the missing-file error (the spec's
`InvocationError`, a Python `FileNotFoundError` raised by `shutil.move`) and
the finalization step never runs: no variable array and no ground-state
array is persisted. -/
theorem run_missing_output_aborts (env : SimEnv) (m : ParamsManager)
    (ps₁ ps₂ : List (List (String × ℚ))) (p : List (String × ℚ))
    (ident : String)
    (hsplit : m.generate_variables = ps₁ ++ p :: ps₂)
    (hpre : ∀ q ∈ ps₁,
      ∃ od, lDPoissonExSolver._run_single env m._variable_formats q = .ok od)
    (hident : lDPoissonExSolver._get_dir_name m._variable_formats p = .ok ident)
    (hmiss : (env.has_out ident && env.has_status ident &&
      env.has_wave ident) = false) :
    lDPoissonExSolver.run env m = .error .fileNotFoundError ∧
    ∀ arrays, lDPoissonExSolver.run env m ≠ .ok arrays := by
  have hsingle : lDPoissonExSolver._run_single env m._variable_formats p =
      .error .fileNotFoundError := by
    unfold lDPoissonExSolver._run_single
    rw [hident]
    simp [hmiss]
  have hloop : runLoop env m._variable_formats (ps₁ ++ p :: ps₂) =
      .error .fileNotFoundError := by
    clear hsplit
    induction ps₁ with
    | nil =>
      simp only [List.nil_append, runLoop, hsingle]
    | cons q qs ih =>
      obtain ⟨od, hod⟩ := hpre q (List.mem_cons_self q qs)
      have ih' := ih (fun q' hq' => hpre q' (List.mem_cons_of_mem q hq'))
      rw [List.cons_append]
      show (match lDPoissonExSolver._run_single env m._variable_formats q with
        | Except.error e => Except.error e
        | Except.ok od =>
          match runLoop env m._variable_formats (qs ++ p :: ps₂) with
          | Except.error e => Except.error e
          | Except.ok rest =>
            Except.ok
              ((od.energy_ground_state, od.position_ground_state) :: rest)) =
        Except.error PyError.fileNotFoundError
      rw [hod, ih']
  have hrun : lDPoissonExSolver.run env m = .error .fileNotFoundError := by
    unfold lDPoissonExSolver.run
    rw [hsplit, hloop]
  refine ⟨hrun, ?_⟩
  intro arrays harr
  rw [hrun] at harr
  exact Except.noConfusion harr

/-- The environment in which no simulator output file ever exists. -/
def emptyEnv : SimEnv :=
  ⟨fun _ => false, fun _ => false, fun _ => false, fun _ => []⟩

unseal Rat.mul Rat.add Rat.sub Rat.inv Rat.ofScientific in
theorem run_missing_output_aborts_witness :
    lDPoissonExSolver.run emptyEnv
        (ParamsManager.init [] [⟨"V", .list [0, 1/2], some ("\x7b:.1f\x7d")⟩]) =
      .error .fileNotFoundError ∧
    ∀ arrays, lDPoissonExSolver.run emptyEnv
        (ParamsManager.init [] [⟨"V", .list [0, 1/2], some ("\x7b:.1f\x7d")⟩]) ≠
      .ok arrays := by
  refine run_missing_output_aborts emptyEnv
    (ParamsManager.init [] [⟨"V", .list [0, 1/2], some ("\x7b:.1f\x7d")⟩])
    [] [[("V", 1/2)]] [("V", 0)] "V(0.0)" rfl ?_ (by decide) rfl
  intro q hq
  exact absurd hq (List.not_mem_nil q)

end OneDPoissonEx
